import Mathlib

/-!
A shallow embedding of the rust-calc expression pipeline
(src/src/lexer, src/src/parser, src/src/evaluator) in Lean 4,
together with theorems settling the specification's claims.

The lexer's typestate FSM (src/src/lexer/fsm.rs) is embedded as plain
functions over the context fields: the remaining character stream
(`current_char` consed onto the `input` iterator), the running byte
offset `position`, and the accumulated `buffer`.  The numeric type `N`
and its radix-10 parser (`N::from_str_radix(_, 10)`, an injected
capability of the `NumericValue` trait) are parameters.
-/

set_option maxRecDepth 8000

deriving instance DecidableEq for Except

namespace RustCalc

/-- Rust's `char::is_whitespace`: the Unicode `White_Space` property,
used by the Start state of the lexer FSM. -/
def isRustWhitespace (c : Char) : Bool :=
  (0x9 ≤ c.toNat && c.toNat ≤ 0xD) || c.toNat == 0x20 || c.toNat == 0x85 ||
  c.toNat == 0xA0 || c.toNat == 0x1680 || (0x2000 ≤ c.toNat && c.toNat ≤ 0x200A) ||
  c.toNat == 0x2028 || c.toNat == 0x2029 || c.toNat == 0x202F || c.toNat == 0x205F ||
  c.toNat == 0x3000

/-- Rust's `char::is_ascii_digit`: code points of '0'..='9'. -/
def isAsciiDigit (c : Char) : Bool := 48 ≤ c.toNat && c.toNat ≤ 57

/-- Rust's `char::is_ascii_alphabetic`: code points of 'A'..='Z' and 'a'..='z'. -/
def isAsciiAlphabetic (c : Char) : Bool :=
  (65 ≤ c.toNat && c.toNat ≤ 90) || (97 ≤ c.toNat && c.toNat ≤ 122)

/-- The continuation-character test of the InIdentifier state:
ASCII letters, ASCII digits and underscore. -/
def isIdentChar (c : Char) : Bool := isAsciiAlphabetic c || isAsciiDigit c || c == '_'

/-- src/src/lexer/error.rs: `LexerError`. -/
inductive LexerError where
  | UnexpectedChar (c : Char) (offset : Nat)
  | InvalidNumber (text : String) (offset : Nat)
deriving DecidableEq

/-- src/src/lexer/token.rs: `Associativity`. -/
inductive Associativity where
  | Left
  | Right
deriving DecidableEq

/-- src/src/lexer/token.rs: `Operator`. -/
inductive Operator where
  | Plus
  | Minus
  | Star
  | Slash
  | Caret
deriving DecidableEq

/-- src/src/lexer/token.rs: `Operator::get`. -/
def Operator.get (c : Char) : Option Operator :=
  match c with
  | '+' => some .Plus
  | '-' => some .Minus
  | '*' => some .Star
  | '/' => some .Slash
  | '^' => some .Caret
  | _ => none

/-- src/src/lexer/token.rs: `Operator::priority` (u8; the values stay below 4,
so Nat is an exact model). -/
def Operator.priority : Operator → Nat
  | .Plus => 1
  | .Minus => 1
  | .Star => 2
  | .Slash => 2
  | .Caret => 3

/-- src/src/lexer/token.rs: `Operator::associativity`. -/
def Operator.associativity : Operator → Associativity
  | .Caret => .Right
  | _ => .Left

/-- src/src/lexer/token.rs: `Punctuation`. -/
inductive Punctuation where
  | LeftParenthesis
  | RightParenthesis
  | Semicolon
  | Assignment
deriving DecidableEq

/-- src/src/lexer/token.rs: `Punctuation::get`. -/
def Punctuation.get (c : Char) : Option Punctuation :=
  match c with
  | '(' => some .LeftParenthesis
  | ')' => some .RightParenthesis
  | ';' => some .Semicolon
  | '=' => some .Assignment
  | _ => none

/-- src/src/lexer/token.rs: `Token<N>`. -/
inductive Token (N : Type) where
  | Number (n : N)
  | Identifier (name : String)
  | Operator (op : RustCalc.Operator)
  | Punctuation (p : RustCalc.Punctuation)
  | Eof
deriving DecidableEq

variable {N : Type}

/-- The tail of both number-collecting states: parse the buffer with the
numeric type's radix-10 parser (`N::from_str_radix(&buffer, 10)`), a parse
failure becoming `InvalidNumber(buffer, position)`. -/
def finishNumber (parseNum : String → Option N) (buffer rest : List Char) (position : Nat) :
    Except LexerError (Token N × List Char × Nat) :=
  match parseNum (String.mk buffer) with
  | some n => .ok (.Number n, rest, position)
  | none => .error (.InvalidNumber (String.mk buffer) position)

/-- src/src/lexer/fsm.rs: the digit loop of `LexerFSM::<DecimalPart>::collect`.
`initialLen` is the buffer length captured on entry; if no digit is consumed
the result is `InvalidNumber(buffer, position)`. -/
def collectDecimalAux (parseNum : String → Option N) (initialLen : Nat) :
    List Char → Nat → List Char → Except LexerError (Token N × List Char × Nat)
  | c :: rs, position, buffer =>
    if isAsciiDigit c then
      collectDecimalAux parseNum initialLen rs (position + c.utf8Size) (buffer ++ [c])
    else if buffer.length = initialLen then
      .error (.InvalidNumber (String.mk buffer) position)
    else
      finishNumber parseNum buffer (c :: rs) position
  | [], position, buffer =>
    if buffer.length = initialLen then
      .error (.InvalidNumber (String.mk buffer) position)
    else
      finishNumber parseNum buffer [] position

/-- src/src/lexer/fsm.rs: `LexerFSM::<DecimalPart>::collect`. -/
def collectDecimal (parseNum : String → Option N) (rest : List Char) (position : Nat)
    (buffer : List Char) : Except LexerError (Token N × List Char × Nat) :=
  collectDecimalAux parseNum buffer.length rest position buffer

/-- src/src/lexer/fsm.rs: the loop of `LexerFSM::<IntegerPart>::collect`
(the buffer was cleared on entry, see `collectInteger`). -/
def collectIntegerAux (parseNum : String → Option N) :
    List Char → Nat → List Char → Except LexerError (Token N × List Char × Nat)
  | c :: rs, position, buffer =>
    if isAsciiDigit c then
      collectIntegerAux parseNum rs (position + c.utf8Size) (buffer ++ [c])
    else if c = '.' then
      collectDecimal parseNum rs (position + c.utf8Size) (buffer ++ [c])
    else
      finishNumber parseNum buffer (c :: rs) position
  | [], position, buffer => finishNumber parseNum buffer [] position

/-- src/src/lexer/fsm.rs: `LexerFSM::<IntegerPart>::collect`
(clears the buffer, then runs the digit loop). -/
def collectInteger (parseNum : String → Option N) (rest : List Char) (position : Nat) :
    Except LexerError (Token N × List Char × Nat) :=
  collectIntegerAux parseNum rest position []

/-- src/src/lexer/fsm.rs: the loop of `LexerFSM::<InIdentifier>::collect`. -/
def collectIdentAux : List Char → Nat → List Char → Token N × List Char × Nat
  | c :: rs, position, buffer =>
    if isIdentChar c then collectIdentAux rs (position + c.utf8Size) (buffer ++ [c])
    else (.Identifier (String.mk buffer), c :: rs, position)
  | [], position, buffer => (.Identifier (String.mk buffer), [], position)

/-- src/src/lexer/fsm.rs: `LexerFSM::<InIdentifier>::collect`. -/
def collectIdent (rest : List Char) (position : Nat) : Token N × List Char × Nat :=
  collectIdentAux rest position []

/-- src/src/lexer/fsm.rs: `LexerFSM::<Start>::next_token` over the context's
remaining stream and byte offset. -/
def nextToken (parseNum : String → Option N) :
    List Char → Nat → Except LexerError (Token N × List Char × Nat)
  | [], position => .ok (.Eof, [], position)
  | c :: rs, position =>
    if isRustWhitespace c then
      nextToken parseNum rs (position + c.utf8Size)
    else if isAsciiDigit c then
      collectInteger parseNum (c :: rs) position
    else if isAsciiAlphabetic c then
      .ok (collectIdent (c :: rs) position)
    else
      match Operator.get c with
      | some op => .ok (.Operator op, rs, position + c.utf8Size)
      | none =>
        match Punctuation.get c with
        | some p => .ok (.Punctuation p, rs, position + c.utf8Size)
        | none => .error (.UnexpectedChar c position)

/-- The lexer iterator's state: `Option` of the FSM context, mirroring the
`fsm: Option<LexerFSM<..>>` field of `Lexer` in src/src/lexer/mod.rs. -/
abbrev LexerState := Option (List Char × Nat)

/-- src/src/lexer/mod.rs: `<Lexer as Iterator>::next`.  The FSM is `take`n out;
it is put back only on a non-Eof token, so after an error (or Eof) the state
stays `none` forever. -/
def lexerNext (parseNum : String → Option N) :
    LexerState → Option (Except LexerError (Token N)) × LexerState
  | none => (none, none)
  | some (rest, position) =>
    match nextToken parseNum rest position with
    | .ok (.Eof, _, _) => (none, none)
    | .ok (t, rest', position') => (some (.ok t), some (rest', position'))
    | .error e => (some (.error e), none)

/-- The finite sequence the lexer iterator produces, collected with fuel.
Each non-Eof token consumes at least one character, so the fuel
`input.length + 1` supplied by `lexAll` is never exhausted. -/
def lexAllFuel (parseNum : String → Option N) :
    Nat → LexerState → List (Except LexerError (Token N))
  | 0, _ => []
  | fuel + 1, st =>
    match lexerNext parseNum st with
    | (none, _) => []
    | (some item, st') => item :: lexAllFuel parseNum fuel st'

/-- Tokenizing a whole input: `Lexer::new(input)` collected to a list.
`FSMContext::new` starts at byte offset 0 with the full character stream. -/
def lexAll (parseNum : String → Option N) (s : String) :
    List (Except LexerError (Token N)) :=
  lexAllFuel parseNum (s.length + 1) (some (s.data, 0))

/-- src/src/parser/ast.rs: `UnaryOp<N>`.  The `_Marker(PhantomData)` variant
exists only to use the type parameter; it is never constructed and its
`apply` arm is `unreachable!()`, so it is not modelled. -/
inductive UnaryOp where
  | Negative
  | Positive
deriving DecidableEq

/-- src/src/parser/ast.rs: `UnaryOp::apply` (`Negative` is `N::zero() - a`). -/
def UnaryOp.apply [Zero N] [Sub N] : UnaryOp → N → N
  | .Negative, a => (0 : N) - a
  | .Positive, a => a

/-- src/src/parser/ast.rs: `Expression<N>`. -/
inductive Expression (N : Type) where
  | Number (n : N)
  | Variable (name : String)
  | Unary (op : UnaryOp) (operand : Expression N)
  | Binary (left : Expression N) (op : RustCalc.Operator) (right : Expression N)
  | Call (name : String) (argument : Expression N)
deriving DecidableEq

/-- src/src/parser/ast.rs: `Statement<N>`. -/
inductive Statement (N : Type) where
  | Assignment (name : String) (e : RustCalc.Expression N)
  | Expression (e : RustCalc.Expression N)
  | Empty
deriving DecidableEq

/-- src/src/parser/error.rs: `ParserError<N>`. -/
inductive ParserError (N : Type) where
  | LexerError (e : RustCalc.LexerError)
  | UnexpectedToken (t : Token N)
  | UnexpectedEnd
  | InvalidAssignment
deriving DecidableEq

/-- src/src/parser/ast.rs: `impl TryFrom<Operator> for UnaryOp`. -/
def UnaryOp.tryFrom (N : Type) (op : Operator) : Except (ParserError N) UnaryOp :=
  match op with
  | .Plus => .ok .Positive
  | .Minus => .ok .Negative
  | _ => .error (.UnexpectedToken (.Operator op))

/-- An item of the lexer's sequence, as the parser consumes it. -/
abbrev LTok (N : Type) := Except LexerError (Token N)

/-- src/src/parser/mod.rs: `Parser::peek` — peek the next token-or-error
without consuming; a lexer error is cloned and converted. -/
def peek : List (LTok N) → Except (ParserError N) (Option (Token N))
  | [] => .ok none
  | .error e :: _ => .error (.LexerError e)
  | .ok t :: _ => .ok (some t)

/-- src/src/parser/mod.rs: `Parser::advance` — consume the next item;
exhaustion is `UnexpectedEnd`, a lexer error converts. -/
def advance : List (LTok N) → Except (ParserError N) (Token N × List (LTok N))
  | [] => .error .UnexpectedEnd
  | .error e :: _ => .error (.LexerError e)
  | .ok t :: rest => .ok (t, rest)

/-- src/src/parser/mod.rs: `Parser::expect`. -/
def expect [DecidableEq N] (token : Token N) (ts : List (LTok N)) :
    Except (ParserError N) (List (LTok N)) :=
  match advance ts with
  | .error e => .error e
  | .ok (nextToken, rest) =>
    if nextToken = token then .ok rest else .error (.UnexpectedToken nextToken)

mutual

/-- src/src/parser/mod.rs: `Parser::parse_primary`.  `first` is the token the
caller already consumed.  The fuel bounds the recursion depth; the fuel
`runParser` supplies is never exhausted, since every level of recursion is
preceded by consuming a token of the finite stream. -/
def parsePrimary [DecidableEq N] : Nat → Token N → List (LTok N) →
    Except (ParserError N) (Expression N × List (LTok N))
  | 0, _, _ => .error .UnexpectedEnd
  | fuel + 1, first, ts =>
    match first with
    | .Number num => .ok (.Number num, ts)
    | .Identifier varName =>
      match peek ts with
      | .error e => .error e
      | .ok (some (.Punctuation .LeftParenthesis)) =>
        match advance ts with
        | .error e => .error e
        | .ok (leftParenthesis, ts₁) =>
          match parsePrimary fuel leftParenthesis ts₁ with
          | .error e => .error e
          | .ok (argument, ts₂) => .ok (.Call varName argument, ts₂)
      | .ok _ => .ok (.Variable varName, ts)
    | .Punctuation .LeftParenthesis =>
      match advance ts with
      | .error e => .error e
      | .ok (next, ts₁) =>
        match parseExpression fuel next 0 ts₁ with
        | .error e => .error e
        | .ok (result, ts₂) =>
          match expect (.Punctuation .RightParenthesis) ts₂ with
          | .error e => .error e
          | .ok ts₃ => .ok (result, ts₃)
    | .Operator op =>
      if op = .Plus ∨ op = .Minus then
        match advance ts with
        | .error e => .error e
        | .ok (next, ts₁) =>
          match parsePrimary fuel next ts₁ with
          | .error e => .error e
          | .ok (operand, ts₂) =>
            match UnaryOp.tryFrom N op with
            | .error e => .error e
            | .ok u => .ok (.Unary u operand, ts₂)
      else .error (.UnexpectedToken (.Operator op))
    | token => .error (.UnexpectedToken token)

/-- src/src/parser/mod.rs: `Parser::parse_expression` — parse a primary from
`first`, then fold operators by precedence climbing (`parseExpressionLoop`). -/
def parseExpression [DecidableEq N] : Nat → Token N → Nat → List (LTok N) →
    Except (ParserError N) (Expression N × List (LTok N))
  | 0, _, _, _ => .error .UnexpectedEnd
  | fuel + 1, first, minPrecedence, ts =>
    match parsePrimary fuel first ts with
    | .error e => .error e
    | .ok (primary, ts₁) => parseExpressionLoop fuel primary minPrecedence ts₁

/-- src/src/parser/mod.rs: the `loop` of `Parser::parse_expression`, with
`primary` the accumulator. -/
def parseExpressionLoop [DecidableEq N] : Nat → Expression N → Nat → List (LTok N) →
    Except (ParserError N) (Expression N × List (LTok N))
  | 0, _, _, _ => .error .UnexpectedEnd
  | fuel + 1, primary, minPrecedence, ts =>
    match peek ts with
    | .error e => .error e
    | .ok (some (.Operator op)) =>
      if op.priority < minPrecedence then .ok (primary, ts)
      else
        match advance ts with
        | .error e => .error e
        | .ok (_, ts₁) =>
          let nextMinPrec :=
            if op.associativity = .Left then op.priority + 1 else op.priority
          match advance ts₁ with
          | .error e => .error e
          | .ok (tokenAfterOperator, ts₂) =>
            match parseExpression fuel tokenAfterOperator nextMinPrec ts₂ with
            | .error e => .error e
            | .ok (afterOperator, ts₃) =>
              parseExpressionLoop fuel (.Binary primary op afterOperator) minPrecedence ts₃
    | .ok (some (.Punctuation .Semicolon)) => .ok (primary, ts)
    | .ok (some (.Punctuation .RightParenthesis)) => .ok (primary, ts)
    | .ok none => .ok (primary, ts)
    | .ok (some token) => .error (.UnexpectedToken token)

/-- src/src/parser/mod.rs: `Parser::parse_statement`. -/
def parseStatement [DecidableEq N] : Nat → List (LTok N) →
    Except (ParserError N) (Statement N × List (LTok N))
  | 0, _ => .error .UnexpectedEnd
  | fuel + 1, ts =>
    match advance ts with
    | .error e => .error e
    | .ok (.Identifier varName, ts₁) =>
      match peek ts₁ with
      | .error e => .error e
      | .ok (some (.Punctuation .Assignment)) => parseAssignment fuel varName ts₁
      | .ok _ =>
        match parseExpression fuel (.Identifier varName) 0 ts₁ with
        | .error e => .error e
        | .ok (e, ts₂) => .ok (.Expression e, ts₂)
    | .ok (.Punctuation .Semicolon, ts₁) => .ok (.Empty, ts₁)
    | .ok (token, ts₁) =>
      match parseExpression fuel token 0 ts₁ with
      | .error e => .error e
      | .ok (e, ts₂) => .ok (.Expression e, ts₂)

/-- src/src/parser/mod.rs: `Parser::parse_assignment` (`varName` is the
identifier `parse_statement` already consumed). -/
def parseAssignment [DecidableEq N] : Nat → String → List (LTok N) →
    Except (ParserError N) (Statement N × List (LTok N))
  | 0, _, _ => .error .UnexpectedEnd
  | fuel + 1, varName, ts =>
    match expect (Token.Punctuation .Assignment) ts with
    | .error e => .error e
    | .ok ts₁ =>
      match advance ts₁ with
      | .error e => .error e
      | .ok (firstExpressionToken, ts₂) =>
        match parseExpression fuel firstExpressionToken 0 ts₂ with
        | .error e => .error e
        | .ok (e, ts₃) => .ok (.Assignment varName e, ts₃)

/-- src/src/parser/mod.rs: `Parser::parse_program` — parse statements while
tokens remain; a non-Empty statement must be followed by a semicolon. -/
def parseProgram [DecidableEq N] : Nat → List (LTok N) →
    Except (ParserError N) (List (Statement N))
  | 0, _ => .error .UnexpectedEnd
  | fuel + 1, ts =>
    match peek ts with
    | .error e => .error e
    | .ok none => .ok []
    | .ok (some _) =>
      match parseStatement fuel ts with
      | .error e => .error e
      | .ok (statement, ts₁) =>
        match (match statement with
               | .Empty => Except.ok ts₁
               | _ => expect (Token.Punctuation .Semicolon) ts₁) with
        | .error e => .error e
        | .ok ts₂ =>
          match parseProgram fuel ts₂ with
          | .error e => .error e
          | .ok statements => .ok (statement :: statements)

end

/-- `Parser::new(input)` followed by `parse_program`: the parser drains the
lexer's (finite, error-terminated) sequence through a one-item `Peekable`,
which the materialized `lexAll` list models exactly.  The fuel bounds only
the recursion depth and is generous enough never to run out: the depth grows
by at most four between two consumed tokens. -/
def runParser [DecidableEq N] (parseNum : String → Option N) (input : String) :
    Except (ParserError N) (List (Statement N)) :=
  let ts := lexAll parseNum input
  parseProgram (4 * ts.length + 8) ts

/-- src/rust-calc-lib/src/evaluator/error.rs: `EvaluatorError<N>` (the
variant set the evaluator in src/src/evaluator/mod.rs constructs). -/
inductive EvaluatorError (N : Type) where
  | ParserError (e : RustCalc.ParserError N)
  | UnexpectedError
  | OperationFailed (msg : String)
  | UndefinedVariable (name : String)
  | UnknownFunction (name : String)
  | InvalidAssignment (name : String)
deriving DecidableEq

/-- The evaluator's `env: HashMap<String, N>`, modelled as a key-unique
association list with the map's observable get/insert behavior. -/
abbrev Env (N : Type) := List (String × N)

/-- `HashMap::get` (by the observable lookup). -/
def envGet (name : String) (env : Env N) : Option N :=
  (env.find? (fun p => p.1 == name)).map (·.2)

/-- `HashMap::insert`: bind `name` to `v`, overwriting any prior binding. -/
def envInsert (name : String) (v : N) (env : Env N) : Env N :=
  (name, v) :: env.filter (fun p => p.1 != name)

/-- src/src/evaluator/mod.rs: `Evaluator::eval_expression`.  `applyBin` stands
for `Operator::apply` and `builtins` for the injected `BuiltinFn` capability's
`call`; neither reads or writes the environment. -/
def evalExpression [Zero N] [Sub N] (applyBin : Operator → N → N → Except String N)
    (builtins : String → N → Option N) (env : Env N) :
    Expression N → Except (EvaluatorError N) N
  | .Number n => .ok n
  | .Variable varName =>
    match envGet varName env with
    | some n => .ok n
    | none => .error (.UndefinedVariable varName)
  | .Unary unaryOp e =>
    match evalExpression applyBin builtins env e with
    | .ok a => .ok (unaryOp.apply a)
    | .error er => .error er
  | .Binary e₁ op e₂ =>
    match evalExpression applyBin builtins env e₁ with
    | .error er => .error er
    | .ok a =>
      match evalExpression applyBin builtins env e₂ with
      | .error er => .error er
      | .ok b =>
        match applyBin op a b with
        | .ok r => .ok r
        | .error msg => .error (.OperationFailed msg)
  | .Call funcName e =>
    match evalExpression applyBin builtins env e with
    | .error er => .error er
    | .ok argument =>
      match builtins funcName argument with
      | some r => .ok r
      | none => .error (.UnknownFunction funcName)

/-- src/src/evaluator/mod.rs: `Evaluator::eval_statement`, with the
environment state made explicit (result, new environment). -/
def evalStatement [Zero N] [Sub N] (applyBin : Operator → N → N → Except String N)
    (builtins : String → N → Option N) (env : Env N) :
    Statement N → Except (EvaluatorError N) (Option N) × Env N
  | .Assignment varName e =>
    match evalExpression applyBin builtins env e with
    | .ok exprRes => (.ok none, envInsert varName exprRes env)
    | .error er => (.error er, env)
  | .Expression e =>
    match evalExpression applyBin builtins env e with
    | .ok v => (.ok (some v), env)
    | .error er => (.error er, env)
  | .Empty => (.ok none, env)

/-- The statement loop of `Evaluator::parse`: `res` starts as
`Err(UnexpectedError)` and is overwritten by every statement's result. -/
def evalStatements [Zero N] [Sub N] (applyBin : Operator → N → N → Except String N)
    (builtins : String → N → Option N) (env : Env N) (statements : List (Statement N)) :
    Except (EvaluatorError N) (Option N) × Env N :=
  statements.foldl (fun acc statement => evalStatement applyBin builtins acc.2 statement)
    (.error .UnexpectedError, env)

/-- src/src/evaluator/mod.rs: `Evaluator::parse` — parse the whole input,
then run the statement loop against the (persistent) environment. -/
def evalParse [DecidableEq N] [Zero N] [Sub N] (parseNum : String → Option N)
    (applyBin : Operator → N → N → Except String N)
    (builtins : String → N → Option N) (env : Env N) (input : String) :
    Except (EvaluatorError N) (Option N) × Env N :=
  match runParser parseNum input with
  | .error e => (.error (.ParserError e), env)
  | .ok statements => evalStatements applyBin builtins env statements

/-- Base-10 value of a digit string. -/
def digitsToNat (ds : List Char) : Nat :=
  ds.foldl (fun a c => 10 * a + (c.toNat - '0'.toNat)) 0

/-- Modelled from the spec: the numeric backend's radix-10 parser
(`N::from_str_radix(text, 10)` of the `NumericValue` capability),
instantiated at an arbitrary-precision integer backend: a nonempty string of
ASCII digits parses in base 10, anything else (a sign, a decimal point, …)
fails.  The backend implementations are not under src/; they are an injected
capability. -/
def parseIntRadix10 (s : String) : Option ℤ :=
  if s.data ≠ [] ∧ s.data.all (fun c => isAsciiDigit c) then
    some (digitsToNat s.data : ℤ)
  else none

/-- Modelled from the spec: `Operator::apply`, the "operator's arithmetic,
which itself may fail (e.g., division by zero)" (spec §4.3), instantiated at
the integer backend; its source is not under src/ (only its call site in
src/src/evaluator/mod.rs is). -/
def applyBinInt : Operator → ℤ → ℤ → Except String ℤ
  | .Plus, a, b => .ok (a + b)
  | .Minus, a, b => .ok (a - b)
  | .Star, a, b => .ok (a * b)
  | .Slash, a, b => if b = 0 then .error "Cannot divide by zero" else .ok (a / b)
  | .Caret, a, b =>
    if 0 ≤ b then .ok (a ^ b.toNat) else .error "negative exponent"

/-- A builtin capability with no functions (`BuiltinFn::call` returning
`None` for every name). -/
def builtinsNone : String → ℤ → Option ℤ := fun _ _ => none

/-- The numeral shape `DIGIT+('.'DIGIT+)?` of spec §8: a nonempty run of
ASCII digits, optionally followed by a dot and a nonempty run of ASCII
digits, with nothing after. -/
def isNumeralStr (s : String) : Bool :=
  let ds := s.data.takeWhile (fun c => isAsciiDigit c)
  let es := s.data.dropWhile (fun c => isAsciiDigit c)
  !ds.isEmpty &&
    (es.isEmpty ||
      (es.head? == some '.' && !es.tail.isEmpty && es.tail.all (fun c => isAsciiDigit c)))

/-- The total UTF-8 byte size of a character list (what the lexer's
`position` advances by while consuming it). -/
def utf8Len (cs : List Char) : Nat := (cs.map Char.utf8Size).sum

/-- Is a `ParserError` the (never-constructed) `InvalidAssignment` variant? -/
def ParserError.isInvalidAssignment : ParserError N → Bool
  | .InvalidAssignment => true
  | _ => false

/-- Does an `EvaluatorError` involve either `InvalidAssignment` variant of
the public error taxonomy (the evaluator's own, or the parser's wrapped)? -/
def EvaluatorError.isInvalidAssignment : EvaluatorError N → Bool
  | .InvalidAssignment _ => true
  | .ParserError e => e.isInvalidAssignment
  | _ => false

/-- The error variants `eval_expression` can produce. -/
def EvaluatorError.isRuntime : EvaluatorError N → Bool
  | .OperationFailed _ => true
  | .UndefinedVariable _ => true
  | .UnknownFunction _ => true
  | _ => false

/-- A parser result whose error (if any) is not the `InvalidAssignment`
variant. -/
def ResOkP {α : Type _} : Except (ParserError N) α → Prop
  | .error e => e.isInvalidAssignment = false
  | .ok _ => True

end RustCalc

namespace RustCalc

/-! Helper lemmas about the evaluator's error discipline and the
environment's get/insert behavior. -/

variable {N : Type}

theorem evalExpression_error_isRuntime [Zero N] [Sub N]
    (applyBin : Operator → N → N → Except String N) (builtins : String → N → Option N)
    (env : Env N) :
    ∀ (e : Expression N) (er : EvaluatorError N),
      evalExpression applyBin builtins env e = .error er → er.isRuntime = true := by
  intro e
  induction e with
  | Number n => intro er h; simp [evalExpression] at h
  | Variable v =>
    intro er h
    simp only [evalExpression] at h
    rcases hg : envGet v env with _ | n <;> simp only [hg, Except.error.injEq] at h
    · subst h; rfl
    · exact absurd h (by simp)
  | Unary op e ih =>
    intro er h
    simp only [evalExpression] at h
    rcases he : evalExpression applyBin builtins env e with er' | a <;>
      simp only [he, Except.error.injEq] at h
    · subst h; exact ih er' he
    · exact absurd h (by simp)
  | Binary e₁ op e₂ ih₁ ih₂ =>
    intro er h
    simp only [evalExpression] at h
    rcases h₁ : evalExpression applyBin builtins env e₁ with er' | a <;>
      simp only [h₁, Except.error.injEq] at h
    · subst h; exact ih₁ er' h₁
    · rcases h₂ : evalExpression applyBin builtins env e₂ with er' | b <;>
        simp only [h₂, Except.error.injEq] at h
      · subst h; exact ih₂ er' h₂
      · rcases hab : applyBin op a b with msg | r <;>
          simp only [hab, Except.error.injEq] at h
        · subst h; rfl
        · exact absurd h (by simp)
  | Call f e ih =>
    intro er h
    simp only [evalExpression] at h
    rcases he : evalExpression applyBin builtins env e with er' | a <;>
      simp only [he, Except.error.injEq] at h
    · subst h; exact ih er' he
    · rcases hb : builtins f a with _ | r <;> simp only [hb, Except.error.injEq] at h
      · subst h; rfl
      · exact absurd h (by simp)

theorem evalStatement_error_isRuntime [Zero N] [Sub N]
    (applyBin : Operator → N → N → Except String N) (builtins : String → N → Option N)
    (env : Env N) (stmt : Statement N) (er : EvaluatorError N)
    (h : (evalStatement applyBin builtins env stmt).1 = .error er) : er.isRuntime = true := by
  cases stmt with
  | Assignment x e =>
    simp only [evalStatement] at h
    rcases he : evalExpression applyBin builtins env e with er' | v <;>
      simp only [he, Except.error.injEq] at h
    · subst h
      exact evalExpression_error_isRuntime applyBin builtins env e er' he
    · exact absurd h (by simp)
  | Expression e =>
    simp only [evalStatement] at h
    rcases he : evalExpression applyBin builtins env e with er' | v <;>
      simp only [he, Except.error.injEq] at h
    · subst h
      exact evalExpression_error_isRuntime applyBin builtins env e er' he
    · exact absurd h (by simp)
  | Empty => simp [evalStatement] at h

theorem evalFold_error_isRuntime [Zero N] [Sub N]
    (applyBin : Operator → N → N → Except String N) (builtins : String → N → Option N) :
    ∀ (stmts : List (Statement N)) (acc : Except (EvaluatorError N) (Option N) × Env N),
      (∀ er, acc.1 = .error er → er.isRuntime = true) →
      ∀ er,
        (stmts.foldl (fun acc statement => evalStatement applyBin builtins acc.2 statement)
            acc).1 = .error er →
        er.isRuntime = true := by
  intro stmts
  induction stmts with
  | nil => intro acc hacc er h; exact hacc er h
  | cons s ss ih =>
    intro acc hacc er h
    simp only [List.foldl_cons] at h
    refine ih _ ?_ er h
    intro er' h'
    exact evalStatement_error_isRuntime applyBin builtins acc.2 s er' h'

theorem evalStatements_cons_error_isRuntime [Zero N] [Sub N]
    (applyBin : Operator → N → N → Except String N) (builtins : String → N → Option N)
    (env : Env N) (s : Statement N) (ss : List (Statement N)) (er : EvaluatorError N)
    (h : (evalStatements applyBin builtins env (s :: ss)).1 = .error er) :
    er.isRuntime = true := by
  simp only [evalStatements, List.foldl_cons] at h
  refine evalFold_error_isRuntime applyBin builtins ss _ ?_ er h
  intro er' h'
  exact evalStatement_error_isRuntime applyBin builtins env s er' h'

theorem envGet_envInsert_self (name : String) (v : N) (env : Env N) :
    envGet name (envInsert name v env) = some v := by
  simp [envGet, envInsert]

theorem envGet_envInsert_ne (name other : String) (v : N) (env : Env N)
    (h : other ≠ name) : envGet other (envInsert name v env) = envGet other env := by
  simp only [envGet, envInsert]
  have hbeq : (name == other) = false := by
    simp [beq_iff_eq]; intro hc; exact h hc.symm
  rw [List.find?]
  simp only [hbeq]
  induction env with
  | nil => simp
  | cons p ps ih =>
    by_cases hp : p.1 = name
    · simp only [List.filter]
      have : (p.1 != name) = false := by simp [bne, hp]
      rw [this]
      have hpo : (p.1 == other) = false := by
        simp [beq_iff_eq, hp]; intro hc; exact h hc.symm
      rw [List.find?]
      simp only [hpo]
      exact ih
    · simp only [List.filter]
      have : (p.1 != name) = true := by simp [bne, hp]
      rw [this]
      by_cases hpo : p.1 = other
      · have hb : (p.1 == other) = true := by simp [beq_iff_eq, hpo]
        rw [List.find?, List.find?]
        simp [hb]
      · have hb : (p.1 == other) = false := by simp [beq_iff_eq, hpo]
        rw [List.find?, List.find?]
        simp only [hb]
        exact ih

end RustCalc

namespace RustCalc

/-! Claim theorems. -/

/-- C1 counterexample: on the input "y; 3;" the first statement fails with
UndefinedVariable("y"), yet `Evaluator::parse` does not abort or surface that
error — it evaluates the second statement and returns its value 3. -/
theorem parse_aborts_on_statement_failure_counterexample :
    evalParse parseIntRadix10 applyBinInt builtinsNone [] "y; 3;" = (.ok (some 3), []) ∧
    (evalParse parseIntRadix10 applyBinInt builtinsNone [] "y; 3;").1 ≠
      .error (.UndefinedVariable "y") := by
  constructor
  · decide
  · decide

/-- C1 (corrected): `Evaluator::parse` does not abort on a failing statement.
It evaluates every parsed statement in order, overwriting the result each
time, and returns the result (value or error) of the last statement only,
computed in the environment produced by evaluating all earlier statements —
whose side effects remain in place (no rollback). -/
theorem parse_evaluates_all_statements_returns_last :
    ∀ (N : Type) [DecidableEq N] [Zero N] [Sub N] (parseNum : String → Option N)
      (applyBin : Operator → N → N → Except String N) (builtins : String → N → Option N)
      (env : Env N) (input : String) (init : List (Statement N)) (lastS : Statement N),
      runParser parseNum input = .ok (init ++ [lastS]) →
      evalParse parseNum applyBin builtins env input =
        evalStatement applyBin builtins (evalStatements applyBin builtins env init).2 lastS := by
  intro N _ _ _ parseNum applyBin builtins env input init lastS hparse
  simp only [evalParse, hparse, evalStatements, List.foldl_append, List.foldl_cons,
    List.foldl_nil]

/-- C1 witness: the theorem applied to the input "y; 3;" with the failing
statement `y;` first and `3;` last. -/
theorem parse_evaluates_all_statements_returns_last_witness :
    runParser parseIntRadix10 "y; 3;" =
      .ok ([Statement.Expression (.Variable "y")] ++ [Statement.Expression (.Number 3)]) ∧
    evalParse parseIntRadix10 applyBinInt builtinsNone [] "y; 3;" =
      evalStatement applyBinInt builtinsNone
        (evalStatements applyBinInt builtinsNone [] [Statement.Expression (.Variable "y")]).2
        (Statement.Expression (.Number 3)) :=
  ⟨by decide,
   parse_evaluates_all_statements_returns_last ℤ parseIntRadix10 applyBinInt builtinsNone
     [] "y; 3;" [Statement.Expression (.Variable "y")] (Statement.Expression (.Number 3))
     (by decide)⟩

/-- C3 counterexample: the empty input parses to zero statements, and
`Evaluator::parse` then returns the initial `Err(UnexpectedError)` — the
defensive catch-all variant is reachable through the public interface. -/
theorem unexpected_error_unreachable_counterexample :
    evalParse parseIntRadix10 applyBinInt builtinsNone [] "" =
      (.error .UnexpectedError, []) := by
  decide

/-- C3 (corrected): `Evaluator::parse` returns `UnexpectedError` exactly when
the input parses successfully to zero statements (for example the empty
input); whenever parsing fails, or yields at least one statement, the
catch-all variant is never returned. -/
theorem unexpected_error_iff_zero_statements :
    ∀ (N : Type) [DecidableEq N] [Zero N] [Sub N] (parseNum : String → Option N)
      (applyBin : Operator → N → N → Except String N) (builtins : String → N → Option N)
      (env : Env N) (input : String),
      (evalParse parseNum applyBin builtins env input).1 = .error .UnexpectedError ↔
        runParser parseNum input = .ok ([] : List (Statement N)) := by
  intro N _ _ _ parseNum applyBin builtins env input
  constructor
  · intro h
    rcases hp : runParser parseNum input with e | stmts <;>
      simp only [evalParse, hp] at h
    · exact absurd h (by simp)
    · cases stmts with
      | nil => rfl
      | cons s ss =>
        exfalso
        have hrt := evalStatements_cons_error_isRuntime applyBin builtins env s ss _ h
        simp [EvaluatorError.isRuntime] at hrt
  · intro h
    simp [evalParse, h, evalStatements]

/-- C3 witness: the corrected claim applied to the empty input. -/
theorem unexpected_error_iff_zero_statements_witness :
    (evalParse parseIntRadix10 applyBinInt builtinsNone [] "").1 =
      .error .UnexpectedError :=
  (unexpected_error_iff_zero_statements ℤ parseIntRadix10 applyBinInt builtinsNone []
    "").mpr (by decide)

/-- C4 (confirmed): precedence climbing gives `*` precedence over `+`, and
`^` folds right-to-left: parsing "2 + 3 * 4;" yields
Expression(Binary(2, Plus, Binary(3, Star, 4))) and parsing "2 ^ 3 ^ 2;"
yields Expression(Binary(2, Caret, Binary(3, Caret, 2))). -/
theorem parser_precedence_and_associativity :
    runParser parseIntRadix10 "2 + 3 * 4;" =
      .ok [.Expression (.Binary (.Number 2) .Plus (.Binary (.Number 3) .Star (.Number 4)))] ∧
    runParser parseIntRadix10 "2 ^ 3 ^ 2;" =
      .ok [.Expression (.Binary (.Number 2) .Caret (.Binary (.Number 3) .Caret (.Number 2)))] ∧
    Operator.associativity .Caret = .Right := by
  refine ⟨by decide, by decide, rfl⟩

/-- C6 (confirmed): a numeral whose decimal point is followed by no digit
fails lexing — tokenizing "5." yields exactly the error
InvalidNumber("5.", 2), with the buffer including the dot and 2 the byte
offset at the failure, for every numeric backend (the radix-10 parser is
never consulted). -/
theorem lexer_trailing_dot_invalid_number :
    ∀ (N : Type) (parseNum : String → Option N),
      lexAll parseNum "5." = [.error (.InvalidNumber "5." 2)] := by
  intro N parseNum
  rfl

/-- C8 (confirmed): the Environment is mutated only by Assignment statements
(which store the evaluated right-hand side, overwriting any prior binding,
and yield no value); Expression and Empty statements leave it unchanged; and
bindings persist across successive `Evaluator::parse` calls, so
"x = 5; x + 1;" yields 6 and leaves x bound to 5 for subsequent inputs. -/
theorem environment_mutated_only_by_assignment :
    (∀ (N : Type) [Zero N] [Sub N] (applyBin : Operator → N → N → Except String N)
        (builtins : String → N → Option N) (env : Env N) (e : Expression N),
        (evalStatement applyBin builtins env (Statement.Expression e)).2 = env) ∧
    (∀ (N : Type) [Zero N] [Sub N] (applyBin : Operator → N → N → Except String N)
        (builtins : String → N → Option N) (env : Env N),
        (evalStatement applyBin builtins env Statement.Empty).2 = env) ∧
    (∀ (N : Type) [Zero N] [Sub N] (applyBin : Operator → N → N → Except String N)
        (builtins : String → N → Option N) (env : Env N) (x : String) (e : Expression N)
        (v : N),
        evalExpression applyBin builtins env e = .ok v →
        evalStatement applyBin builtins env (Statement.Assignment x e) =
            (.ok none, envInsert x v env) ∧
          envGet x (envInsert x v env) = some v) ∧
    evalParse parseIntRadix10 applyBinInt builtinsNone [] "x = 5; x + 1;" =
      (.ok (some 6), [("x", 5)]) ∧
    evalParse parseIntRadix10 applyBinInt builtinsNone [("x", 5)] "x;" =
      (.ok (some 5), [("x", 5)]) := by
  refine ⟨?_, ?_, ?_, by decide, by decide⟩
  · intro N _ _ applyBin builtins env e
    simp only [evalStatement]
    rcases he : evalExpression applyBin builtins env e with er | v <;> simp [he]
  · intro N _ _ applyBin builtins env
    rfl
  · intro N _ _ applyBin builtins env x e v he
    exact ⟨by simp [evalStatement, he], envGet_envInsert_self x v env⟩

/-- C8 witness: the Assignment conjunct applied to `x = 5` in the empty
environment. -/
theorem environment_mutated_only_by_assignment_witness :
    evalStatement applyBinInt builtinsNone ([] : Env ℤ) (Statement.Assignment "x" (.Number 5)) =
        (.ok none, envInsert "x" (5 : ℤ) []) ∧
      envGet "x" (envInsert "x" (5 : ℤ) []) = some 5 :=
  environment_mutated_only_by_assignment.2.2.1 ℤ applyBinInt builtinsNone [] "x"
    (.Number 5) 5 (by decide)

/-- C9 (confirmed): evaluating a Variable absent from the Environment fails
with UndefinedVariable(name) — in particular "y;" before any assignment to y
— and evaluating a Call first evaluates its single argument (an argument
error propagates unchanged) and then fails with UnknownFunction(name)
exactly when the builtin capability returns nothing for that name. -/
theorem variable_and_call_evaluation :
    (∀ (N : Type) [Zero N] [Sub N] (applyBin : Operator → N → N → Except String N)
        (builtins : String → N → Option N) (env : Env N) (name : String),
        envGet name env = none →
        evalExpression applyBin builtins env (Expression.Variable name) =
          .error (.UndefinedVariable name)) ∧
    (∀ (N : Type) [Zero N] [Sub N] (applyBin : Operator → N → N → Except String N)
        (builtins : String → N → Option N) (env : Env N) (f : String) (e : Expression N)
        (v : N),
        evalExpression applyBin builtins env e = .ok v →
        (evalExpression applyBin builtins env (Expression.Call f e) =
            .error (.UnknownFunction f) ↔ builtins f v = none) ∧
        ∀ r, builtins f v = some r →
          evalExpression applyBin builtins env (Expression.Call f e) = .ok r) ∧
    (∀ (N : Type) [Zero N] [Sub N] (applyBin : Operator → N → N → Except String N)
        (builtins : String → N → Option N) (env : Env N) (f : String) (e : Expression N)
        (er : EvaluatorError N),
        evalExpression applyBin builtins env e = .error er →
        evalExpression applyBin builtins env (Expression.Call f e) = .error er) ∧
    evalParse parseIntRadix10 applyBinInt builtinsNone [] "y;" =
      (.error (.UndefinedVariable "y"), []) := by
  refine ⟨?_, ?_, ?_, by decide⟩
  · intro N _ _ applyBin builtins env name h
    simp [evalExpression, h]
  · intro N _ _ applyBin builtins env f e v he
    refine ⟨?_, ?_⟩
    · simp only [evalExpression, he]
      rcases hb : builtins f v with _ | r <;> simp [hb]
    · intro r hr
      simp [evalExpression, he, hr]
  · intro N _ _ applyBin builtins env f e er he
    simp [evalExpression, he]

/-- C9 witness: the Variable conjunct applied to "y" in the empty
environment. -/
theorem variable_and_call_evaluation_witness :
    evalExpression applyBinInt builtinsNone ([] : Env ℤ) (Expression.Variable "y") =
      .error (.UndefinedVariable "y") :=
  variable_and_call_evaluation.1 ℤ applyBinInt builtinsNone [] "y" (by decide)

end RustCalc

namespace RustCalc

/-! Lexer lemmas for the numeral claim. -/

variable {N : Type}

theorem string_mk_data (s : String) : String.mk s.data = s := rfl

theorem utf8Len_cons (c : Char) (cs : List Char) :
    utf8Len (c :: cs) = c.utf8Size + utf8Len cs := by
  simp [utf8Len]

theorem isAsciiDigit_not_whitespace (c : Char) (h : isAsciiDigit c = true) :
    isRustWhitespace c = false := by
  simp only [isAsciiDigit, Bool.and_eq_true, decide_eq_true_eq] at h
  simp only [isRustWhitespace]
  simp only [Bool.or_eq_false_iff, Bool.and_eq_false_iff, decide_eq_false_iff_not, beq_eq_false_iff_ne,
    ne_eq]
  omega

theorem collectIntegerAux_digits (parseNum : String → Option N) :
    ∀ (ds : List Char), (∀ c ∈ ds, isAsciiDigit c = true) →
      ∀ (rest : List Char) (pos : Nat) (buf : List Char),
        collectIntegerAux parseNum (ds ++ rest) pos buf =
          collectIntegerAux parseNum rest (pos + utf8Len ds) (buf ++ ds) := by
  intro ds
  induction ds with
  | nil => intro _ rest pos buf; simp [utf8Len]
  | cons c cs ih =>
    intro hd rest pos buf
    have hc : isAsciiDigit c = true := hd c (by simp)
    simp only [List.cons_append, collectIntegerAux, hc, if_true, List.append_eq]
    rw [ih (fun x hx => hd x (by simp [hx])) rest]
    rw [utf8Len_cons]
    have h1 : pos + c.utf8Size + utf8Len cs = pos + (c.utf8Size + utf8Len cs) := by omega
    have h2 : buf ++ [c] ++ cs = buf ++ c :: cs := by simp
    rw [h1, h2]

theorem collectDecimalAux_digits (parseNum : String → Option N) (initialLen : Nat) :
    ∀ (ds : List Char), (∀ c ∈ ds, isAsciiDigit c = true) →
      ∀ (rest : List Char) (pos : Nat) (buf : List Char),
        collectDecimalAux parseNum initialLen (ds ++ rest) pos buf =
          collectDecimalAux parseNum initialLen rest (pos + utf8Len ds) (buf ++ ds) := by
  intro ds
  induction ds with
  | nil => intro _ rest pos buf; simp [utf8Len]
  | cons c cs ih =>
    intro hd rest pos buf
    have hc : isAsciiDigit c = true := hd c (by simp)
    simp only [List.cons_append, collectDecimalAux, hc, if_true, List.append_eq]
    rw [ih (fun x hx => hd x (by simp [hx])) rest]
    rw [utf8Len_cons]
    have h1 : pos + c.utf8Size + utf8Len cs = pos + (c.utf8Size + utf8Len cs) := by omega
    have h2 : buf ++ [c] ++ cs = buf ++ c :: cs := by simp
    rw [h1, h2]

theorem isNumeralStr_decompose (s : String) (h : isNumeralStr s = true) :
    ∃ ds es, s.data = ds ++ es ∧ (∀ c ∈ ds, isAsciiDigit c = true) ∧ ds ≠ [] ∧
      (es = [] ∨ ∃ fs, es = '.' :: fs ∧ fs ≠ [] ∧ ∀ c ∈ fs, isAsciiDigit c = true) := by
  simp only [isNumeralStr, Bool.and_eq_true, Bool.or_eq_true, Bool.not_eq_eq_eq_not,
    Bool.not_true] at h
  obtain ⟨hds, hrest⟩ := h
  refine ⟨s.data.takeWhile (fun c => isAsciiDigit c), s.data.dropWhile (fun c => isAsciiDigit c),
    (List.takeWhile_append_dropWhile _ _).symm, ?_, ?_, ?_⟩
  · intro c hc; exact List.mem_takeWhile_imp hc
  · intro hnil
    rw [hnil] at hds
    simp at hds
  · rcases hrest with hnil | hfrac
    · left
      simpa using hnil
    · right
      obtain ⟨⟨hhead, htail_ne⟩, htail_dig⟩ := hfrac
      cases hes : s.data.dropWhile (fun c => isAsciiDigit c) with
      | nil => rw [hes] at hhead; simp at hhead
      | cons e₀ fs =>
        rw [hes] at hhead htail_ne htail_dig
        simp only [List.head?_cons, Option.some.injEq, beq_iff_eq] at hhead
        refine ⟨fs, by rw [hhead], ?_, ?_⟩
        · intro hnil
          rw [hnil] at htail_ne
          simp at htail_ne
        · intro c hc
          simp only [List.tail_cons, List.all_eq_true] at htail_dig
          exact htail_dig c hc

theorem nextToken_numeral (parseNum : String → Option N) (s : String) (v : N)
    (hnum : isNumeralStr s = true) (hparse : parseNum s = some v) :
    ∃ p, nextToken parseNum s.data 0 = .ok (.Number v, [], p) := by
  obtain ⟨ds, es, hsplit, hdig, hds_ne, hcase⟩ := isNumeralStr_decompose s hnum
  obtain ⟨d, ds₁, hd⟩ : ∃ d ds₁, ds = d :: ds₁ := by
    cases h : ds with
    | nil => exact absurd h hds_ne
    | cons a l => exact ⟨a, l, rfl⟩
  have hstart : ∀ tail pos, nextToken parseNum (ds ++ tail) pos =
      collectIntegerAux parseNum (ds ++ tail) pos [] := by
    intro tail pos
    have hcd : isAsciiDigit d = true := hdig d (by rw [hd]; simp)
    rw [hd]
    simp only [List.cons_append, nextToken, isAsciiDigit_not_whitespace d hcd,
      Bool.false_eq_true, if_false, hcd, if_true, collectInteger, List.append_eq]
  rcases hcase with hes | ⟨fs, hes, hfs_ne, hfdig⟩
  · -- no decimal part: the whole input is the digit run
    rw [hes] at hsplit
    refine ⟨0 + utf8Len ds, ?_⟩
    rw [hsplit, hstart [] 0, collectIntegerAux_digits parseNum ds hdig [] 0 []]
    simp only [collectIntegerAux, finishNumber, List.nil_append]
    have hmk : String.mk ds = s := by
      rw [← string_mk_data s, hsplit]
      simp
    rw [hmk, hparse]
  · -- a decimal part: es = '.' :: fs with fs a nonempty digit run
    rw [hes] at hsplit
    refine ⟨utf8Len ds + '.'.utf8Size + utf8Len fs, ?_⟩
    rw [hsplit, hstart ('.' :: fs) 0,
      collectIntegerAux_digits parseNum ds hdig ('.' :: fs) 0 []]
    simp only [List.nil_append, Nat.zero_add]
    simp only [collectIntegerAux, show isAsciiDigit '.' = false by decide,
      Bool.false_eq_true, if_false, if_pos rfl, collectDecimal]
    rw [← List.append_nil fs,
      collectDecimalAux_digits parseNum (ds ++ ['.']).length fs hfdig [] _ _]
    simp only [collectDecimalAux]
    have hlen : ((ds ++ ['.']) ++ fs).length ≠ (ds ++ ['.']).length := by
      simp only [List.length_append, List.length_cons, List.length_nil]
      have : fs.length ≠ 0 := by
        intro h0
        exact hfs_ne (List.eq_nil_of_length_eq_zero h0)
      omega
    rw [if_neg hlen]
    simp only [finishNumber]
    have hmk : String.mk ((ds ++ ['.']) ++ fs) = s := by
      rw [← string_mk_data s, hsplit]
      simp
    rw [hmk, hparse]
    simp

theorem lexAllFuel_empty_input (parseNum : String → Option N) (fuel p : Nat) :
    lexAllFuel parseNum (fuel + 1) (some ([], p)) = [] := rfl

/-- C5 (confirmed): for every input matching `DIGIT+('.'DIGIT+)?` whose text
the numeric backend's radix-10 parser accepts, tokenizing yields exactly one
Number token carrying that parsed value, and the sequence then ends. -/
theorem numeral_lexes_to_single_number_token :
    ∀ (N : Type) (parseNum : String → Option N) (s : String) (v : N),
      isNumeralStr s = true → parseNum s = some v →
      lexAll parseNum s = [.ok (.Number v)] := by
  intro N parseNum s v hnum hparse
  obtain ⟨p, hnt⟩ := nextToken_numeral parseNum s v hnum hparse
  have hne : s.data ≠ [] := by
    intro hnil
    simp only [isNumeralStr, hnil] at hnum
    simp at hnum
  have hlen : 1 ≤ s.length := by
    show 1 ≤ s.data.length
    cases h : s.data with
    | nil => exact absurd h hne
    | cons a l => simp
  obtain ⟨k, hk⟩ : ∃ k, s.length = k + 1 := ⟨s.length - 1, by omega⟩
  simp only [lexAll, hk]
  show lexAllFuel parseNum (k + 1 + 1) (some (s.data, 0)) = _
  simp only [lexAllFuel, lexerNext, hnt, nextToken]

/-- C5 witness: the numeral "42" with the integer backend. -/
theorem numeral_lexes_to_single_number_token_witness :
    lexAll parseIntRadix10 "42" = [.ok (.Number 42)] :=
  numeral_lexes_to_single_number_token ℤ parseIntRadix10 "42" 42 (by decide) (by decide)

end RustCalc

namespace RustCalc

/-! Lemmas for the halt-at-first-error claim. -/

variable {N : Type}

theorem lexAllFuel_none (parseNum : String → Option N) (fuel : Nat) :
    lexAllFuel parseNum fuel none = [] := by
  cases fuel <;> rfl

theorem lexerNext_error_state (parseNum : String → Option N) (st st' : LexerState)
    (e : LexerError) (h : lexerNext parseNum st = (some (.error e), st')) : st' = none := by
  cases st with
  | none =>
    simp only [lexerNext, Prod.mk.injEq] at h
    exact absurd h.1 (by simp)
  | some ctx =>
    obtain ⟨rest, pos⟩ := ctx
    simp only [lexerNext] at h
    rcases hnt : nextToken parseNum rest pos with e' | ⟨t, rest', pos'⟩ <;>
      simp only [hnt] at h
    · injection h with h1 h2
      exact h2.symm
    · cases t <;> simp_all

theorem lexAllFuel_error_is_last (parseNum : String → Option N) :
    ∀ (fuel : Nat) (st : LexerState) (i : Nat) (e : LexerError),
      (lexAllFuel parseNum fuel st).get? i = some (.error e) →
      i + 1 = (lexAllFuel parseNum fuel st).length := by
  intro fuel
  induction fuel with
  | zero => intro st i e h; simp [lexAllFuel] at h
  | succ n ih =>
    intro st i e h
    rcases hn : lexerNext parseNum st with ⟨item, st'⟩
    cases item with
    | none =>
      simp only [lexAllFuel, hn] at h
      simp at h
    | some it =>
      simp only [lexAllFuel, hn] at h ⊢
      cases i with
      | zero =>
        simp only [List.get?_cons_zero, Option.some.injEq] at h
        subst h
        have hst' : st' = none := lexerNext_error_state parseNum st st' e hn
        subst hst'
        rw [lexAllFuel_none]
        rfl
      | succ j =>
        simp only [List.get?_cons_succ] at h
        have := ih st' j e h
        simp only [List.length_cons]
        omega

/-- C7 (confirmed): the lexer's sequence halts permanently at the first
error: an error item is always the last item of the sequence, the iterator's
state after yielding an error is `None` and yields nothing forever after,
and tokenizing "42 &" yields exactly [Number(42), Err(UnexpectedChar('&', 3))]
and then the sequence ends. -/
theorem lexer_halts_at_first_error :
    (∀ (N : Type) (parseNum : String → Option N) (fuel : Nat) (st : LexerState) (i : Nat)
        (e : LexerError),
        (lexAllFuel parseNum fuel st).get? i = some (.error e) →
        i + 1 = (lexAllFuel parseNum fuel st).length) ∧
    (∀ (N : Type) (parseNum : String → Option N) (st st' : LexerState) (e : LexerError),
        lexerNext parseNum st = (some (.error e), st') →
        st' = none ∧ lexerNext parseNum st' = (none, none)) ∧
    lexAll parseIntRadix10 "42 &" = [.ok (.Number 42), .error (.UnexpectedChar '&' 3)] := by
  refine ⟨?_, ?_, by decide⟩
  · intro N parseNum fuel st i e h
    exact lexAllFuel_error_is_last parseNum fuel st i e h
  · intro N parseNum st st' e h
    have hst' := lexerNext_error_state parseNum st st' e h
    subst hst'
    exact ⟨rfl, rfl⟩

/-- C7 witness: the error item of the tokenization of "42 &" sits at the last
index of the sequence. -/
theorem lexer_halts_at_first_error_witness :
    1 + 1 =
      (lexAllFuel parseIntRadix10 ("42 &".length + 1) (some ("42 &".data, 0))).length :=
  lexer_halts_at_first_error.1 ℤ parseIntRadix10 ("42 &".length + 1) (some ("42 &".data, 0))
    1 (.UnexpectedChar '&' 3) (by decide)

end RustCalc

namespace RustCalc

/-! The InvalidAssignment variants of the error taxonomy are never
constructed: every error site of the parser and the evaluator produces a
different variant. -/

variable {N : Type}

theorem resOkP_err_of {α β : Type _} {x : Except (ParserError N) α} {e : ParserError N}
    (hx : ResOkP x) (h : x = .error e) :
    ResOkP (.error e : Except (ParserError N) β) := by
  rw [h] at hx
  exact hx

theorem peek_resOkP (ts : List (LTok N)) : ResOkP (peek ts) := by
  cases ts with
  | nil => trivial
  | cons x rest => cases x with
    | error e => rfl
    | ok t => trivial

theorem advance_resOkP (ts : List (LTok N)) : ResOkP (advance ts) := by
  cases ts with
  | nil => rfl
  | cons x rest => cases x with
    | error e => rfl
    | ok t => trivial

theorem expect_resOkP [DecidableEq N] (token : Token N) (ts : List (LTok N)) :
    ResOkP (expect token ts) := by
  cases ts with
  | nil => rfl
  | cons x rest =>
    cases x with
    | error e => rfl
    | ok t =>
      simp only [expect, advance]
      split
      · trivial
      · rfl

theorem tryFrom_resOkP (op : Operator) : ResOkP (UnaryOp.tryFrom N op) := by
  cases op <;> first | trivial | rfl

theorem parser_resOkP [DecidableEq N] :
    ∀ fuel : Nat,
      (∀ (first : Token N) (ts : List (LTok N)), ResOkP (parsePrimary fuel first ts)) ∧
      (∀ (first : Token N) (minPrec : Nat) (ts : List (LTok N)),
        ResOkP (parseExpression fuel first minPrec ts)) ∧
      (∀ (primary : Expression N) (minPrec : Nat) (ts : List (LTok N)),
        ResOkP (parseExpressionLoop fuel primary minPrec ts)) ∧
      (∀ ts : List (LTok N), ResOkP (parseStatement fuel ts)) ∧
      (∀ (varName : String) (ts : List (LTok N)), ResOkP (parseAssignment fuel varName ts)) ∧
      (∀ ts : List (LTok N), ResOkP (parseProgram fuel ts)) := by
  intro fuel
  induction fuel with
  | zero => refine ⟨?_, ?_, ?_, ?_, ?_, ?_⟩ <;> intros <;> rfl
  | succ n ih =>
    obtain ⟨ihP, ihE, ihL, ihS, ihA, ihG⟩ := ih
    refine ⟨?_, ?_, ?_, ?_, ?_, ?_⟩
    · intro first ts
      simp only [parsePrimary]
      repeat' split
      all_goals first
        | trivial
        | rfl
        | (rename_i heq
           first
             | exact resOkP_err_of (peek_resOkP _) heq
             | exact resOkP_err_of (advance_resOkP _) heq
             | exact resOkP_err_of (expect_resOkP _ _) heq
             | exact resOkP_err_of (tryFrom_resOkP _) heq
             | exact resOkP_err_of (ihP _ _) heq
             | exact resOkP_err_of (ihE _ _ _) heq
             | exact resOkP_err_of (ihL _ _ _) heq)
    · intro first minPrec ts
      simp only [parseExpression]
      repeat' split
      all_goals first
        | trivial
        | rfl
        | exact ihL _ _ _
        | (rename_i heq
           first
             | exact resOkP_err_of (ihP _ _) heq
             | exact resOkP_err_of (ihL _ _ _) heq)
    · intro primary minPrec ts
      simp only [parseExpressionLoop]
      repeat' split
      all_goals first
        | trivial
        | rfl
        | exact ihL _ _ _
        | (rename_i heq
           first
             | exact resOkP_err_of (peek_resOkP _) heq
             | exact resOkP_err_of (advance_resOkP _) heq
             | exact resOkP_err_of (ihE _ _ _) heq
             | exact resOkP_err_of (ihL _ _ _) heq)
    · intro ts
      simp only [parseStatement]
      repeat' split
      all_goals first
        | trivial
        | rfl
        | exact ihA _ _
        | (rename_i heq
           first
             | exact resOkP_err_of (peek_resOkP _) heq
             | exact resOkP_err_of (advance_resOkP _) heq
             | exact resOkP_err_of (ihE _ _ _) heq)
    · intro varName ts
      simp only [parseAssignment]
      repeat' split
      all_goals first
        | trivial
        | rfl
        | (rename_i heq
           first
             | exact resOkP_err_of (expect_resOkP _ _) heq
             | exact resOkP_err_of (advance_resOkP _) heq
             | exact resOkP_err_of (ihE _ _ _) heq)
    · intro ts
      simp only [parseProgram]
      repeat' split
      all_goals first
        | trivial
        | rfl
        | (rename_i heq
           first
             | exact resOkP_err_of (peek_resOkP _) heq
             | exact resOkP_err_of (expect_resOkP _ _) heq
             | exact resOkP_err_of (ihS _) heq
             | exact resOkP_err_of (ihG _) heq
             | (split at heq
                · exact absurd heq (by simp)
                · exact resOkP_err_of (expect_resOkP _ _) heq))

end RustCalc

namespace RustCalc

/-- C10 (confirmed): the parser never returns ParserError::InvalidAssignment
and the evaluator never returns EvaluatorError::InvalidAssignment — both
variants of the public error taxonomy are unreachable for every input — and
an assignment to a non-identifier target such as "5 = 3;" instead surfaces
an UnexpectedToken parse error carrying the `=` token. -/
theorem invalid_assignment_variants_unreachable :
    (∀ (N : Type) [DecidableEq N] (fuel : Nat) (ts : List (LTok N)) (e : ParserError N),
        parseProgram fuel ts = .error e → e.isInvalidAssignment = false) ∧
    (∀ (N : Type) [DecidableEq N] (parseNum : String → Option N) (input : String)
        (e : ParserError N),
        runParser parseNum input = .error e → e.isInvalidAssignment = false) ∧
    (∀ (N : Type) [DecidableEq N] [Zero N] [Sub N] (parseNum : String → Option N)
        (applyBin : Operator → N → N → Except String N) (builtins : String → N → Option N)
        (env : Env N) (input : String) (er : EvaluatorError N),
        (evalParse parseNum applyBin builtins env input).1 = .error er →
        er.isInvalidAssignment = false) ∧
    runParser parseIntRadix10 "5 = 3;" =
      .error (.UnexpectedToken (.Punctuation .Assignment)) := by
  have hparse : ∀ (N : Type) [DecidableEq N] (fuel : Nat) (ts : List (LTok N))
      (e : ParserError N), parseProgram fuel ts = .error e → e.isInvalidAssignment = false := by
    intro N _ fuel ts e h
    exact resOkP_err_of (α := List (Statement N)) (β := List (Statement N))
      ((parser_resOkP fuel).2.2.2.2.2 ts) h
  refine ⟨hparse, ?_, ?_, by decide⟩
  · intro N _ parseNum input e h
    simp only [runParser] at h
    exact hparse N _ _ e h
  · intro N _ _ _ parseNum applyBin builtins env input er h
    rcases hp : runParser parseNum input with e | stmts <;>
      simp only [evalParse, hp] at h
    · simp only [Except.error.injEq] at h
      subst h
      show ParserError.isInvalidAssignment e = false
      simp only [runParser] at hp
      exact hparse N _ _ e hp
    · cases stmts with
      | nil =>
        simp only [evalStatements, List.foldl_nil, Except.error.injEq] at h
        subst h
        rfl
      | cons s ss =>
        have hrt := evalStatements_cons_error_isRuntime applyBin builtins env s ss er h
        cases er <;> simp_all [EvaluatorError.isRuntime, EvaluatorError.isInvalidAssignment]

/-- C10 witness: the parse error of "5 = 3;" is UnexpectedToken, not
InvalidAssignment. -/
theorem invalid_assignment_variants_unreachable_witness :
    ParserError.isInvalidAssignment (N := ℤ)
      (.UnexpectedToken (.Punctuation .Assignment)) = false :=
  invalid_assignment_variants_unreachable.2.1 ℤ parseIntRadix10 "5 = 3;"
    (.UnexpectedToken (.Punctuation .Assignment)) (by decide)

/-- C2 counterexample: "f(1+2);" is directly parseable, and its parse is
exactly a Call whose single argument is the binary expression 1+2 — refuting
the claim that such an input is not parseable as that Call. -/
theorem call_argument_counterexample :
    runParser parseIntRadix10 "f(1+2);" =
      .ok [.Expression (.Call "f" (.Binary (.Number 1) .Plus (.Number 2)))] := by
  decide

/-- C2 (corrected): the call's single argument is parsed by `parse_primary`,
but the token handed to that recursive call is the already-consumed
LeftParenthesis, whose primary form is a parenthesized full expression parsed
at minimum precedence 0 up to the matching RightParenthesis.  Nested operator
expressions are therefore directly reachable as call arguments: whatever
`parse_expression` yields between the parentheses becomes the Call's
argument, and "f(1+2);" parses to Call("f", Binary(1, Plus, 2)). -/
theorem call_argument_parses_full_parenthesized_expression :
    ∀ (N : Type) [DecidableEq N] (fuel : Nat) (f : String) (next : Token N)
      (ts₁ ts₂ ts₃ : List (LTok N)) (e : Expression N),
      parseExpression fuel next 0 ts₁ = .ok (e, ts₂) →
      expect (Token.Punctuation .RightParenthesis) ts₂ = .ok ts₃ →
      parsePrimary (fuel + 2) (.Identifier f)
          (.ok (.Punctuation .LeftParenthesis) :: .ok next :: ts₁) =
        .ok (.Call f e, ts₃) := by
  intro N _ fuel f next ts₁ ts₂ ts₃ e h1 h2
  show parsePrimary (fuel + 1 + 1) _ _ = _
  simp only [parsePrimary, peek, advance, h1, h2]

/-- C2 witness: the corrected claim applied to the token stream of
"f(1+2);". -/
theorem call_argument_parses_full_parenthesized_expression_witness :
    parsePrimary (7 + 2) (Token.Identifier "f")
        (.ok (.Punctuation .LeftParenthesis) :: .ok (Token.Number (1 : ℤ)) ::
          [.ok (.Operator .Plus), .ok (.Number 2), .ok (.Punctuation .RightParenthesis),
            .ok (.Punctuation .Semicolon)]) =
      .ok (.Call "f" (.Binary (.Number 1) .Plus (.Number 2)),
        [.ok (.Punctuation .Semicolon)]) :=
  call_argument_parses_full_parenthesized_expression ℤ 7 "f" (.Number 1)
    [.ok (.Operator .Plus), .ok (.Number 2), .ok (.Punctuation .RightParenthesis),
      .ok (.Punctuation .Semicolon)]
    [.ok (.Punctuation .RightParenthesis), .ok (.Punctuation .Semicolon)]
    [.ok (.Punctuation .Semicolon)]
    (.Binary (.Number 1) .Plus (.Number 2)) (by decide) (by decide)

end RustCalc
